import Mathlib

/-!
Verification of the market-quote resolution layer of a two-user portfolio
tracker.  The TypeScript sources are shallowly embedded: JS numbers that the
claims reason about (prices, quantities, timestamps) become `Rat`/`Int`,
strings become `String`, `Map` becomes a lookup function, fallible calls
become `Except`/`Option` values supplied by the environment, and each
network call site is a parameter of the embedded function.
-/

/-! ### JavaScript string primitives

JS `toUpperCase`, `endsWith`, `startsWith`, `includes`, `split('.')[0]` and
first-occurrence `replace` are modelled on the character lists underlying
`String`.  Symbols in this code base are ASCII tickers, for which
`Char.toUpper` agrees with JS `toUpperCase`. -/

def jsToUpper (s : String) : String :=
  ⟨s.data.map Char.toUpper⟩

def jsEndsWith (s suffix : String) : Bool :=
  List.isSuffixOf suffix.data s.data

def jsStartsWith (s p : String) : Bool :=
  List.isPrefixOf p.data s.data

/-- JS `String.prototype.includes`, by direct recursion on the haystack. -/
def containsSub (pat : List Char) : List Char → Bool
  | [] => pat.isEmpty
  | c :: rest => List.isPrefixOf pat (c :: rest) || containsSub pat rest

def jsIncludes (s sub : String) : Bool :=
  containsSub sub.data s.data

/-- JS `split('.')[0]`: everything before the first dot. -/
def jsSplitFirstDot (s : String) : String :=
  ⟨s.data.takeWhile (fun c => c != '.')⟩

/-- JS `String.prototype.replace` with a string pattern replaces the first
occurrence only. -/
def replaceFirstAux (pat rep : List Char) : List Char → List Char
  | [] => []
  | c :: rest =>
    if List.isPrefixOf pat (c :: rest) then rep ++ (c :: rest).drop pat.length
    else c :: replaceFirstAux pat rep rest

def jsReplaceFirst (s pat rep : String) : String :=
  ⟨replaceFirstAux pat.data rep.data s.data⟩

/-! ### Data model (config.ts `QuoteData`, finnhub.ts `FinnhubQuote`) -/

/-- Embeds config.ts `QuoteData`.  The source field `open` is a Lean keyword and is
rendered `openPrice`. -/
structure QuoteData where
  symbol : String
  name : String
  price : Rat
  changesPercentage : Rat
  change : Rat
  dayLow : Rat
  dayHigh : Rat
  openPrice : Rat
  previousClose : Rat
  currency : String
  exchange : String
  marketCap : Option Rat := none
  error : Option String := none
  provider : Option String := none
  deriving DecidableEq, Repr

/-- Embeds finnhub.ts `FinnhubQuote` (the upstream `/quote` JSON).  Each field may be
`undefined` in the JSON, hence `Option`. -/
structure FinnhubQuote where
  c : Option Rat
  d : Option Rat := none
  dp : Option Rat := none
  h : Option Rat := none
  l : Option Rat := none
  o : Option Rat := none
  pc : Option Rat := none
  deriving DecidableEq, Repr

/-- JS `x || 0` applied to a possibly-undefined numeric field (a defined 0 is
falsy and also yields 0, so only definedness matters here). -/
def orZero (x : Option Rat) : Rat := x.getD 0

/-! ### finnhub.ts `ServerFinnhubService` (suffix tables, classifier,
variants, quote loop, rate limiting) -/

def getCurrencyFromSymbol (symbol : String) : String :=
  let upperSymbol := jsToUpper symbol
  if jsEndsWith upperSymbol ".L" || jsEndsWith upperSymbol ".LON" then "GBP"
  else if jsEndsWith upperSymbol ".PA" || jsEndsWith upperSymbol ".PAR" then "EUR"
  else if jsEndsWith upperSymbol ".MI" || jsEndsWith upperSymbol ".MIL" then "EUR"
  else if jsEndsWith upperSymbol ".DE" || jsEndsWith upperSymbol ".ETR" then "EUR"
  else if jsEndsWith upperSymbol ".AS" || jsEndsWith upperSymbol ".AMS" then "EUR"
  else "USD"

def getExchangeFromSymbol (symbol : String) : String :=
  let upperSymbol := jsToUpper symbol
  if jsEndsWith upperSymbol ".L" then "London Stock Exchange"
  else if jsEndsWith upperSymbol ".PA" then "Euronext Paris"
  else if jsEndsWith upperSymbol ".MI" then "Borsa Italiana"
  else if jsEndsWith upperSymbol ".DE" then "XETRA"
  else if jsEndsWith upperSymbol ".AS" then "Euronext Amsterdam"
  else "NASDAQ"

/-- The ETF branch condition of finnhub.ts `categorizeSymbol` (the version at
lines 380-412), on the already-uppercased symbol and description. -/
def etfCondition (symbolUpper descUpper : String) : Bool :=
  jsIncludes descUpper "ETF" ||
  jsIncludes descUpper "FUND" ||
  jsIncludes descUpper "INDEX" ||
  jsIncludes descUpper "EXCHANGE TRADED" ||
  jsIncludes descUpper "VANGUARD" ||
  jsIncludes descUpper "ISHARES" ||
  jsIncludes descUpper "SPDR" ||
  jsIncludes descUpper "XTRACKERS" ||
  jsIncludes descUpper "AMUNDI" ||
  jsIncludes symbolUpper "ETF" ||
  jsStartsWith symbolUpper "VWC" ||
  jsStartsWith symbolUpper "VWCE" ||
  jsStartsWith symbolUpper "SWDA" ||
  jsStartsWith symbolUpper "EUNL"

/-- The crypto branch condition of finnhub.ts `categorizeSymbol`. -/
def cryptoCondition (symbolUpper : String) : Bool :=
  jsIncludes symbolUpper "-USD" ||
  jsIncludes symbolUpper "BTC" ||
  jsIncludes symbolUpper "ETH" ||
  jsEndsWith symbolUpper "USDT" ||
  jsIncludes symbolUpper "CRYPTO"

def categorizeSymbol (symbol description : String) : String :=
  let symbolUpper := jsToUpper symbol
  let descUpper := jsToUpper description
  if etfCondition symbolUpper descUpper then "ETF"
  else if cryptoCondition symbolUpper then "Crypto"
  else "Stock"

def getSymbolVariants (symbol : String) : List String :=
  let upperSymbol := jsToUpper symbol
  let variants := [upperSymbol]
  let variants :=
    if jsIncludes upperSymbol "." then variants ++ [jsSplitFirstDot upperSymbol]
    else variants
  if jsEndsWith upperSymbol ".L" then
    let baseSymbol := jsReplaceFirst upperSymbol ".L" ""
    variants ++ [baseSymbol ++ ".LON", baseSymbol ++ ":LN"]
  else variants

/-- The loop-body acceptance test of finnhub.ts `getQuote`:
`quote && quote.c !== undefined && quote.c !== 0`; a thrown request
(`none` here) is caught and skipped. -/
def usableVariantResponse (resp : Option FinnhubQuote) : Bool :=
  match resp with
  | some q =>
    match q.c with
    | some c => decide (c ≠ 0)
    | none => false
  | none => false

/-- The quote object built for a successful variant in finnhub.ts
`getQuote`.  On this path `q.c` is defined and nonzero (`orZero q.c = c`). -/
def buildFinnhubQuote (symbol : String) (q : FinnhubQuote) : QuoteData :=
  { symbol := jsToUpper symbol
    name := jsToUpper symbol
    price := orZero q.c
    changesPercentage := orZero q.dp
    change := orZero q.d
    dayLow := orZero q.l
    dayHigh := orZero q.h
    openPrice := orZero q.o
    previousClose := orZero q.pc
    currency := getCurrencyFromSymbol symbol
    exchange := getExchangeFromSymbol symbol
    marketCap := none }

/-- The all-variants-failed result of finnhub.ts `getQuote`. -/
def finnhubErrorQuote (symbol : String) : QuoteData :=
  { symbol := jsToUpper symbol
    name := jsToUpper symbol
    price := 0
    changesPercentage := 0
    change := 0
    dayLow := 0
    dayHigh := 0
    openPrice := 0
    previousClose := 0
    currency := getCurrencyFromSymbol symbol
    exchange := getExchangeFromSymbol symbol
    marketCap := none
    error := some "Price data temporarily unavailable - this may be due to API limitations on European markets" }

/-- The `for (const variant of symbolVariants)` loop of finnhub.ts
`getQuote`.  `resp` gives each variant's `/quote` call outcome (`none` = the
request threw, caught by the per-variant `catch`). -/
def tryVariants (resp : String → Option FinnhubQuote) (symbol : String) :
    List String → Option QuoteData
  | [] => none
  | v :: rest =>
    match resp v with
    | some q =>
      match q.c with
      | some c =>
        if c ≠ 0 then some (buildFinnhubQuote symbol q)
        else tryVariants resp symbol rest
      | none => tryVariants resp symbol rest
    | none => tryVariants resp symbol rest

/-- Embeds finnhub.ts `ServerFinnhubService.getQuote` (lines 443-497).  Nothing in
the loop escapes the per-variant `catch`, so the outer `catch` (which would
return `null`) is unreachable and the embedding is total. -/
def finnhubGetQuote (resp : String → Option FinnhubQuote) (symbol : String) :
    QuoteData :=
  match tryVariants resp symbol (getSymbolVariants symbol) with
  | some q => q
  | none => finnhubErrorQuote symbol

/-! ### finnhub.ts rate limiting (`makeRequest`, lines 294-337) -/

def minRequestInterval : Int := 100

/-- Milliseconds slept before the request is issued:
`if (now - last < min) await sleep(min - (now - last))`. -/
def rateLimitDelay (lastRequestTime now : Int) : Int :=
  if now - lastRequestTime < minRequestInterval then
    minRequestInterval - (now - lastRequestTime)
  else 0

inductive HttpResponse where
  /-- `response.ok` -/
  | success : HttpResponse
  /-- status 429 -/
  | tooManyRequests : HttpResponse
  /-- any other non-ok status -/
  | httpError : HttpResponse
  deriving DecidableEq, Repr

/-- The fetch/retry control flow of finnhub.ts `makeRequest`: result is
(request succeeded, number of fetches issued, backoff milliseconds slept).
A 429 first response sleeps 1000 ms and fetches exactly once more; a non-ok
retry response throws (no further retry). -/
def makeRequestFlow (first retry : HttpResponse) : Bool × Nat × Int :=
  match first with
  | .success => (true, 1, 0)
  | .tooManyRequests =>
    match retry with
    | .success => (true, 2, 1000)
    | _ => (false, 2, 1000)
  | .httpError => (false, 1, 0)

/-! ### config.ts `MultiProviderService` (cache + provider orchestration) -/

/-- The in-memory quote cache: config.ts `Map<string, { data; timestamp }>`,
observed through `get`/`set` only, modelled as a lookup function. -/
def Cache : Type := String → Option (QuoteData × Int)

def emptyCache : Cache := fun _ => none

/-- Embeds config.ts `cacheTimeout = 5 * 60 * 1000`. -/
def cacheTimeout : Int := 5 * 60 * 1000

/-- Embeds config.ts `getCachedQuote` (lines 94-101). -/
def getCachedQuote (cache : Cache) (now : Int) (symbol : String) :
    Option QuoteData :=
  match cache (jsToUpper symbol) with
  | some (data, timestamp) =>
    if now - timestamp < cacheTimeout then some data else none
  | none => none

/-- Embeds config.ts `setCachedQuote` (lines 103-105); `Map.set` overwrites any
existing entry for the key. -/
def setCachedQuote (cache : Cache) (now : Int) (symbol : String)
    (data : QuoteData) : Cache :=
  fun k => if k = jsToUpper symbol then some (data, now) else cache k

/-- One upstream numeric field of the Alpha Vantage `"Global Quote"` JSON.
Each field arrives as a string and is consumed twice: its JS truthiness
(`""` is the only falsy string, so the string `"0"` is truthy) and its
`parseFloat` value.  The embedding keeps exactly those two observations. -/
structure AVGlobalQuote where
  /-- `"05. price"` is present and a non-empty string. -/
  priceTruthy : Bool
  /-- `parseFloat(quote["05. price"])` -/
  price : Rat
  /-- `parseFloat(quote["10. change percent"].replace('%',''))` -/
  changePercent : Rat
  change : Rat
  high : Rat
  low : Rat
  openPrice : Rat
  previousClose : Rat
  deriving DecidableEq, Repr

/-- Embeds config.ts `getAlphaVantageQuote` (lines 107-136).  `resp` is the parsed
fetch result: outer `none` = the fetch or JSON decode threw (caught, yielding
`null`), inner level = presence of the `"Global Quote"` field.  The guard is
`data["Global Quote"] && data["Global Quote"]["05. price"]`. -/
def getAlphaVantageQuote (resp : Option (Option AVGlobalQuote))
    (symbol : String) : Option QuoteData :=
  match resp with
  | none => none
  | some none => none
  | some (some quote) =>
    if quote.priceTruthy then
      some
        { symbol := jsToUpper symbol
          name := jsToUpper symbol
          price := quote.price
          changesPercentage := quote.changePercent
          change := quote.change
          dayHigh := quote.high
          dayLow := quote.low
          openPrice := quote.openPrice
          previousClose := quote.previousClose
          currency := getCurrencyFromSymbol symbol
          exchange := getExchangeFromSymbol symbol }
    else none

/-- Embeds config.ts `getBasicEuropeanFallback` (lines 191-207). -/
def getBasicEuropeanFallback (symbol : String) : QuoteData :=
  { symbol := jsToUpper symbol
    name := jsToUpper symbol
    price := 0
    changesPercentage := 0
    change := 0
    dayLow := 0
    dayHigh := 0
    openPrice := 0
    previousClose := 0
    currency := getCurrencyFromSymbol symbol
    exchange := getExchangeFromSymbol symbol
    error := some "Prezzo in tempo reale non disponibile. Puoi aggiungere il prezzo manualmente."
    provider := some "Fallback" }

/-- Outcome of one provider call as `MultiProviderService.getQuote` observes
it: `.error` = the awaited call threw, `.ok none` = it resolved to `null`,
`.ok (some q)` = it resolved to a quote. -/
structure ProviderEnv where
  finnhub : Except Unit (Option QuoteData)
  alphaVantage : Except Unit (Option QuoteData)
  yahoo : Except Unit (Option QuoteData)

/-- The first `try` block of `getQuote`: accept the Finnhub quote only when
it is non-null with `price > 0`, tagging it; a throw is caught and yields
nothing. -/
def tryFinnhubResult : Except Unit (Option QuoteData) → Option QuoteData
  | .ok (some fq) =>
    if fq.price > 0 then some { fq with provider := some "Finnhub" } else none
  | .ok none => none
  | .error _ => none

/-- The second `try` block: any non-null Alpha Vantage quote is accepted
(`if (alphaQuote)`) and tagged. -/
def tryAlphaResult : Except Unit (Option QuoteData) → Option QuoteData
  | .ok (some aq) => some { aq with provider := some "Alpha Vantage" }
  | .ok none => none
  | .error _ => none

/-- The third `try` block: any non-null Yahoo Finance quote is accepted and
tagged. -/
def tryYahooResult : Except Unit (Option QuoteData) → Option QuoteData
  | .ok (some yq) => some { yq with provider := some "Yahoo Finance" }
  | .ok none => none
  | .error _ => none

/-- Providers in the order `getQuote` consults them. -/
inductive Provider where
  | finnhub
  | alphaVantage
  | yahooFinance
  deriving DecidableEq, Repr

/-- Embeds config.ts `MultiProviderService.getQuote` (lines 47-92).  Returns the
quote, the cache after the call, and the list of providers attempted, in
order.  Every throwing call sits inside a `try`/`catch` and the final
fallback is a pure object construction, so the source never throws and never
returns `null`; accordingly the embedding returns a plain `QuoteData`. -/
def multiGetQuote (env : ProviderEnv) (cache : Cache) (now : Int)
    (symbol : String) : QuoteData × Cache × List Provider :=
  match getCachedQuote cache now symbol with
  | some cached => (cached, cache, [])
  | none =>
    match tryFinnhubResult env.finnhub with
    | some enhanced =>
      (enhanced, setCachedQuote cache now symbol enhanced, [.finnhub])
    | none =>
      match tryAlphaResult env.alphaVantage with
      | some enhanced =>
        (enhanced, setCachedQuote cache now symbol enhanced,
         [.finnhub, .alphaVantage])
      | none =>
        match tryYahooResult env.yahoo with
        | some enhanced =>
          (enhanced, setCachedQuote cache now symbol enhanced,
           [.finnhub, .alphaVantage, .yahooFinance])
        | none =>
          (getBasicEuropeanFallback symbol, cache,
           [.finnhub, .alphaVantage, .yahooFinance])

/-- The failure condition of the Finnhub attempt in `getQuote`: the call
threw, returned `null`, or returned a quote with nonpositive price. -/
def FinnhubAttemptFails (r : Except Unit (Option QuoteData)) : Prop :=
  r = .error () ∨ r = .ok none ∨ ∃ q, r = .ok (some q) ∧ q.price ≤ 0

/-- A provider attempt that yields nothing usable: threw or returned
`null`. -/
def AttemptEmpty (r : Except Unit (Option QuoteData)) : Prop :=
  r = .error () ∨ r = .ok none

/-! ### Route handler `GET /api/finnhub/quote/:symbol` (routes file,
lines 48-98) -/

inductive QuoteResponse where
  | json200 : QuoteData → QuoteResponse
  | badRequest : String → QuoteResponse
  | notFound : String → QuoteResponse
  | serverError : String → QuoteResponse
  deriving DecidableEq, Repr

/-- The quote route handler.  `offlineQuote` is
`offlineDataService.getQuoteOffline(symbol)` (an external service; only its
`Option` result shape is needed here), `onlineResult` is the
`multiProviderService.getQuote` outcome.  The second component records
whether the multi-provider (network) path was invoked at all. -/
def quoteHandler (symbol : String) (isOnline : Bool)
    (offlineQuote : Option QuoteData)
    (onlineResult : Except Unit (Option QuoteData)) : QuoteResponse × Bool :=
  if symbol = "" then (.badRequest "Symbol parameter required", false)
  else if !isOnline then
    match offlineQuote with
    | none => (.notFound "Quote not found in offline data", false)
    | some q => (.json200 { q with provider := some "Offline Data" }, false)
  else
    match onlineResult with
    | .ok (some quote) => (.json200 quote, true)
    | .ok none =>
      match offlineQuote with
      | some q => (.json200 { q with provider := some "Offline Data" }, true)
      | none => (.notFound "Quote not found from any provider", true)
    | .error _ =>
      match offlineQuote with
      | some q => (.json200 { q with provider := some "Offline Data" }, true)
      | none => (.serverError "Quote fetch failed from all providers", true)

/-! ### storage.ts `MemStorage` (investments, transactions, sellInvestment) -/

structure Investment where
  id : String
  name : String
  symbol : String
  category : String
  quantity : Rat
  avgPrice : Rat
  currentPrice : Rat
  purchaseDate : String
  aliShare : Rat
  createdAt : String
  updatedAt : String
  deriving DecidableEq, Repr

/-- storage `Transaction`; `type` is a Lean keyword and is rendered
`txType`.  `quantity`/`total` are absent on `price_update` entries. -/
structure Transaction where
  id : String
  txType : String
  assetSymbol : String
  assetName : String
  quantity : Option Rat := none
  price : Option Rat := none
  total : Option Rat := none
  user : String
  timestamp : String
  deriving DecidableEq, Repr

/-- The two `Map`s of `MemStorage`, observed as association lists in
insertion order. -/
structure StorageState where
  investments : List (String × Investment)
  transactions : List (String × Transaction)
  deriving DecidableEq, Repr

def lookupKey {α : Type} (l : List (String × α)) (id : String) : Option α :=
  (l.find? (fun kv => kv.1 = id)).map (fun kv => kv.2)

/-- `Map.delete`. -/
def removeKey {α : Type} (l : List (String × α)) (id : String) :
    List (String × α) :=
  l.filter (fun kv => kv.1 ≠ id)

/-- `Map.set` on a key already present: replace in place. -/
def setKey {α : Type} (l : List (String × α)) (id : String) (v : α) :
    List (String × α) :=
  l.map (fun kv => if kv.1 = id then (id, v) else kv)

/-- Embeds storage.ts `MemStorage.sellInvestment` (lines 176-211), with the
fresh transaction id and the ISO timestamp supplied by the caller.  The
result pairs the thrown-or-returned outcome with the storage state after the
call: both throws precede every mutation in the source, so the error
branches carry the input state unchanged; `createTransaction` appends, then
the investment is deleted (full sell) or updated via `updateInvestment`
(partial sell, which also stamps `updatedAt`). -/
def sellInvestment (st : StorageState) (freshId nowIso : String)
    (id : String) (sellQuantity sellPrice : Rat) (user : String) :
    Except String (Option Investment × Transaction) × StorageState :=
  match lookupKey st.investments id with
  | none => (.error "Investment not found", st)
  | some existing =>
    if sellQuantity > existing.quantity then
      (.error "Cannot sell more than owned quantity", st)
    else
      let txn : Transaction :=
        { id := freshId
          txType := "sell"
          assetSymbol := existing.symbol
          assetName := existing.name
          quantity := some sellQuantity
          price := some sellPrice
          total := some (sellQuantity * sellPrice)
          user := user
          timestamp := nowIso }
      let st1 : StorageState :=
        { st with transactions := st.transactions ++ [(freshId, txn)] }
      if sellQuantity = existing.quantity then
        (.ok (none, txn),
         { st1 with investments := removeKey st1.investments id })
      else
        let updated : Investment :=
          { existing with
              quantity := existing.quantity - sellQuantity
              updatedAt := nowIso }
        (.ok (some updated, txn),
         { st1 with investments := setKey st1.investments id updated })

/-! ### Helper lemmas about the string primitives -/

lemma isPrefixOf_head_ne {c₁ c₂ : Char} {t₁ t₂ r : List Char} (hne : c₁ ≠ c₂)
    (h₁ : List.isPrefixOf (c₁ :: t₁) r = true) :
    List.isPrefixOf (c₂ :: t₂) r = false := by
  cases r with
  | nil => rfl
  | cons b bs =>
    apply Bool.eq_false_iff.mpr
    intro h₂
    simp only [List.isPrefixOf, Bool.and_eq_true, beq_iff_eq] at h₁ h₂
    exact hne (h₁.1.trans h₂.1.symm)

lemma jsEndsWith_false_of_last_ne (s t₁ t₂ : String) (c₁ c₂ : Char)
    (tl₁ tl₂ : List Char)
    (h₁ : t₁.data.reverse = c₁ :: tl₁) (h₂ : t₂.data.reverse = c₂ :: tl₂)
    (hne : c₁ ≠ c₂) (hs : jsEndsWith s t₁ = true) :
    jsEndsWith s t₂ = false := by
  simp only [jsEndsWith, List.isSuffixOf] at hs ⊢
  rw [h₁] at hs
  rw [h₂]
  exact isPrefixOf_head_ne hne hs

lemma eq_cons_cons_of_isPrefixOf_two {a b : Char} {r : List Char}
    (h : List.isPrefixOf [a, b] r = true) : ∃ t, r = a :: b :: t := by
  match r with
  | [] => exact absurd h (by simp [List.isPrefixOf])
  | [c] => exact absurd h (by simp [List.isPrefixOf])
  | c :: d :: t =>
    simp only [List.isPrefixOf, Bool.and_eq_true, beq_iff_eq] at h
    exact ⟨t, by rw [h.1, h.2.1]⟩

lemma containsSub_dot_of_mem {l : List Char} (h : '.' ∈ l) :
    containsSub ['.'] l = true := by
  induction l with
  | nil => cases h
  | cons a rest ih =>
    rcases List.mem_cons.mp h with h' | h'
    · subst h'
      simp [containsSub, List.isPrefixOf]
    · simp [containsSub, ih h']

lemma jsIncludes_dot_of_endsWithL (u : String) (h : jsEndsWith u ".L" = true) :
    jsIncludes u "." = true := by
  simp only [jsEndsWith, List.isSuffixOf] at h
  have hrev : (".L" : String).data.reverse = ['L', '.'] := by decide
  rw [hrev] at h
  obtain ⟨t, ht⟩ := eq_cons_cons_of_isPrefixOf_two h
  have hmem : '.' ∈ u.data := by
    have hm : '.' ∈ u.data.reverse := by
      rw [ht]; exact List.mem_cons.mpr (Or.inr (List.mem_cons.mpr (Or.inl rfl)))
    exact List.mem_reverse.mp hm
  exact containsSub_dot_of_mem hmem

/-! ### Claim C6 -/

/-- Claim C6: the suffix-to-currency and suffix-to-exchange tables are
exact.  A symbol whose uppercased form ends in `.L` maps to GBP and the
London Stock Exchange; `.MI` to EUR and Borsa Italiana; `.PA`, `.DE`, `.AS`
to EUR with Euronext Paris, XETRA, Euronext Amsterdam; a symbol matching
none of the suffixes of the respective table defaults to USD and the generic
US label NASDAQ; and both maps only depend on the symbol up to letter
case. -/
theorem c6_suffix_tables (s : String) :
    (jsEndsWith (jsToUpper s) ".L" = true →
      getCurrencyFromSymbol s = "GBP" ∧
      getExchangeFromSymbol s = "London Stock Exchange")
    ∧ (jsEndsWith (jsToUpper s) ".MI" = true →
      getCurrencyFromSymbol s = "EUR" ∧
      getExchangeFromSymbol s = "Borsa Italiana")
    ∧ (jsEndsWith (jsToUpper s) ".PA" = true →
      getCurrencyFromSymbol s = "EUR" ∧
      getExchangeFromSymbol s = "Euronext Paris")
    ∧ (jsEndsWith (jsToUpper s) ".DE" = true →
      getCurrencyFromSymbol s = "EUR" ∧ getExchangeFromSymbol s = "XETRA")
    ∧ (jsEndsWith (jsToUpper s) ".AS" = true →
      getCurrencyFromSymbol s = "EUR" ∧
      getExchangeFromSymbol s = "Euronext Amsterdam")
    ∧ (jsEndsWith (jsToUpper s) ".L" = false →
       jsEndsWith (jsToUpper s) ".LON" = false →
       jsEndsWith (jsToUpper s) ".PA" = false →
       jsEndsWith (jsToUpper s) ".PAR" = false →
       jsEndsWith (jsToUpper s) ".MI" = false →
       jsEndsWith (jsToUpper s) ".MIL" = false →
       jsEndsWith (jsToUpper s) ".DE" = false →
       jsEndsWith (jsToUpper s) ".ETR" = false →
       jsEndsWith (jsToUpper s) ".AS" = false →
       jsEndsWith (jsToUpper s) ".AMS" = false →
       getCurrencyFromSymbol s = "USD" ∧ getExchangeFromSymbol s = "NASDAQ")
    ∧ (∀ s₂, jsToUpper s = jsToUpper s₂ →
       getCurrencyFromSymbol s = getCurrencyFromSymbol s₂ ∧
       getExchangeFromSymbol s = getExchangeFromSymbol s₂) := by
  refine ⟨?_, ?_, ?_, ?_, ?_, ?_, ?_⟩
  · intro h
    constructor
    · simp [getCurrencyFromSymbol, h]
    · simp [getExchangeFromSymbol, h]
  · intro h
    have hL := jsEndsWith_false_of_last_ne (jsToUpper s) ".MI" ".L"
      'I' 'L' ['M', '.'] ['.'] (by decide) (by decide) (by decide) h
    have hLON := jsEndsWith_false_of_last_ne (jsToUpper s) ".MI" ".LON"
      'I' 'N' ['M', '.'] ['O', 'L', '.'] (by decide) (by decide) (by decide) h
    have hPA := jsEndsWith_false_of_last_ne (jsToUpper s) ".MI" ".PA"
      'I' 'A' ['M', '.'] ['P', '.'] (by decide) (by decide) (by decide) h
    have hPAR := jsEndsWith_false_of_last_ne (jsToUpper s) ".MI" ".PAR"
      'I' 'R' ['M', '.'] ['A', 'P', '.'] (by decide) (by decide) (by decide) h
    constructor
    · simp [getCurrencyFromSymbol, h, hL, hLON, hPA, hPAR]
    · simp [getExchangeFromSymbol, h, hL, hPA]
  · intro h
    have hL := jsEndsWith_false_of_last_ne (jsToUpper s) ".PA" ".L"
      'A' 'L' ['P', '.'] ['.'] (by decide) (by decide) (by decide) h
    have hLON := jsEndsWith_false_of_last_ne (jsToUpper s) ".PA" ".LON"
      'A' 'N' ['P', '.'] ['O', 'L', '.'] (by decide) (by decide) (by decide) h
    constructor
    · simp [getCurrencyFromSymbol, h, hL, hLON]
    · simp [getExchangeFromSymbol, h, hL]
  · intro h
    have hL := jsEndsWith_false_of_last_ne (jsToUpper s) ".DE" ".L"
      'E' 'L' ['D', '.'] ['.'] (by decide) (by decide) (by decide) h
    have hLON := jsEndsWith_false_of_last_ne (jsToUpper s) ".DE" ".LON"
      'E' 'N' ['D', '.'] ['O', 'L', '.'] (by decide) (by decide) (by decide) h
    have hPA := jsEndsWith_false_of_last_ne (jsToUpper s) ".DE" ".PA"
      'E' 'A' ['D', '.'] ['P', '.'] (by decide) (by decide) (by decide) h
    have hPAR := jsEndsWith_false_of_last_ne (jsToUpper s) ".DE" ".PAR"
      'E' 'R' ['D', '.'] ['A', 'P', '.'] (by decide) (by decide) (by decide) h
    have hMI := jsEndsWith_false_of_last_ne (jsToUpper s) ".DE" ".MI"
      'E' 'I' ['D', '.'] ['M', '.'] (by decide) (by decide) (by decide) h
    have hMIL := jsEndsWith_false_of_last_ne (jsToUpper s) ".DE" ".MIL"
      'E' 'L' ['D', '.'] ['I', 'M', '.'] (by decide) (by decide) (by decide) h
    constructor
    · simp [getCurrencyFromSymbol, h, hL, hLON, hPA, hPAR, hMI, hMIL]
    · simp [getExchangeFromSymbol, h, hL, hPA, hMI]
  · intro h
    have hL := jsEndsWith_false_of_last_ne (jsToUpper s) ".AS" ".L"
      'S' 'L' ['A', '.'] ['.'] (by decide) (by decide) (by decide) h
    have hLON := jsEndsWith_false_of_last_ne (jsToUpper s) ".AS" ".LON"
      'S' 'N' ['A', '.'] ['O', 'L', '.'] (by decide) (by decide) (by decide) h
    have hPA := jsEndsWith_false_of_last_ne (jsToUpper s) ".AS" ".PA"
      'S' 'A' ['A', '.'] ['P', '.'] (by decide) (by decide) (by decide) h
    have hPAR := jsEndsWith_false_of_last_ne (jsToUpper s) ".AS" ".PAR"
      'S' 'R' ['A', '.'] ['A', 'P', '.'] (by decide) (by decide) (by decide) h
    have hMI := jsEndsWith_false_of_last_ne (jsToUpper s) ".AS" ".MI"
      'S' 'I' ['A', '.'] ['M', '.'] (by decide) (by decide) (by decide) h
    have hMIL := jsEndsWith_false_of_last_ne (jsToUpper s) ".AS" ".MIL"
      'S' 'L' ['A', '.'] ['I', 'M', '.'] (by decide) (by decide) (by decide) h
    have hDE := jsEndsWith_false_of_last_ne (jsToUpper s) ".AS" ".DE"
      'S' 'E' ['A', '.'] ['D', '.'] (by decide) (by decide) (by decide) h
    have hETR := jsEndsWith_false_of_last_ne (jsToUpper s) ".AS" ".ETR"
      'S' 'R' ['A', '.'] ['T', 'E', '.'] (by decide) (by decide) (by decide) h
    constructor
    · simp [getCurrencyFromSymbol, h, hL, hLON, hPA, hPAR, hMI, hMIL, hDE, hETR]
    · simp [getExchangeFromSymbol, h, hL, hPA, hMI, hDE]
  · intro h1 h2 h3 h4 h5 h6 h7 h8 h9 h10
    constructor
    · simp [getCurrencyFromSymbol, h1, h2, h3, h4, h5, h6, h7, h8, h9, h10]
    · simp [getExchangeFromSymbol, h1, h3, h5, h7, h9]
  · intro s₂ hupper
    constructor
    · simp only [getCurrencyFromSymbol, hupper]
    · simp only [getExchangeFromSymbol, hupper]

/-- Witness for C6 at concrete symbols: `VOD.L`, `ENI.MI`, and the unmapped
`AAPL`. -/
theorem c6_witness :
    getCurrencyFromSymbol "VOD.L" = "GBP" ∧
    getExchangeFromSymbol "VOD.L" = "London Stock Exchange" ∧
    getExchangeFromSymbol "ENI.MI" = "Borsa Italiana" ∧
    getCurrencyFromSymbol "AAPL" = "USD" ∧
    getExchangeFromSymbol "AAPL" = "NASDAQ" := by
  refine ⟨((c6_suffix_tables "VOD.L").1 (by decide)).1,
          ((c6_suffix_tables "VOD.L").1 (by decide)).2,
          ((c6_suffix_tables "ENI.MI").2.1 (by decide)).2, ?_, ?_⟩
  · exact ((c6_suffix_tables "AAPL").2.2.2.2.2.1 (by decide) (by decide)
      (by decide) (by decide) (by decide) (by decide) (by decide) (by decide)
      (by decide) (by decide)).1
  · exact ((c6_suffix_tables "AAPL").2.2.2.2.2.1 (by decide) (by decide)
      (by decide) (by decide) (by decide) (by decide) (by decide) (by decide)
      (by decide) (by decide)).2

/-! ### Claim C7 -/

/-- Claim C7 (counterexample): the classifier has no Bond branch.  The
ISIN-shaped government-bond symbol `IT0001234567` with a bond description is
classified `"Stock"`, not `"Bond"`, refuting branch (c) of the claimed
decision order. -/
theorem c7_counterexample :
    categorizeSymbol "IT0001234567" "ITALY GOVT 2030" = "Stock" ∧
    ("Stock" : String) ≠ "Bond" := by
  constructor
  · decide
  · decide

/-- Claim C7 (amended): the classifier decides with first-match-wins order
ETF, then Crypto, then Stock; there is no Bond branch, so no input ever
yields `"Bond"`; and the three named examples classify as claimed. -/
theorem c7_classifier_amended (symbol description : String) :
    (etfCondition (jsToUpper symbol) (jsToUpper description) = true →
      categorizeSymbol symbol description = "ETF")
    ∧ (etfCondition (jsToUpper symbol) (jsToUpper description) = false →
       cryptoCondition (jsToUpper symbol) = true →
      categorizeSymbol symbol description = "Crypto")
    ∧ (etfCondition (jsToUpper symbol) (jsToUpper description) = false →
       cryptoCondition (jsToUpper symbol) = false →
      categorizeSymbol symbol description = "Stock")
    ∧ categorizeSymbol symbol description ≠ "Bond"
    ∧ categorizeSymbol "VWCE" "Vanguard FTSE All-World UCITS ETF" = "ETF"
    ∧ categorizeSymbol "BTC-USD" "Bitcoin" = "Crypto"
    ∧ categorizeSymbol "AAPL" "Apple Inc." = "Stock" := by
  refine ⟨?_, ?_, ?_, ?_, by decide, by decide, by decide⟩
  · intro h
    simp [categorizeSymbol, h]
  · intro h1 h2
    simp [categorizeSymbol, h1, h2]
  · intro h1 h2
    simp [categorizeSymbol, h1, h2]
  · by_cases h1 : etfCondition (jsToUpper symbol) (jsToUpper description) = true
    · simp [categorizeSymbol, h1]
    · rw [Bool.not_eq_true] at h1
      by_cases h2 : cryptoCondition (jsToUpper symbol) = true
      · simp [categorizeSymbol, h1, h2]
      · rw [Bool.not_eq_true] at h2
        simp [categorizeSymbol, h1, h2]

/-- Witness for C7 (amended) at concrete inputs exercising each branch
hypothesis. -/
theorem c7_witness :
    categorizeSymbol "XY" "GLOBAL FUND" = "ETF" ∧
    categorizeSymbol "DOGE-USD" "Dogecoin" = "Crypto" ∧
    categorizeSymbol "TSLA" "Tesla Inc." = "Stock" := by
  refine ⟨(c7_classifier_amended "XY" "GLOBAL FUND").1 (by decide),
          (c7_classifier_amended "DOGE-USD" "Dogecoin").2.1 (by decide)
            (by decide),
          (c7_classifier_amended "TSLA" "Tesla Inc.").2.2.1 (by decide)
            (by decide)⟩

/-! ### Claim C5 -/

lemma tryVariants_cons_skip (resp : String → Option FinnhubQuote)
    (symbol v : String) (rest : List String)
    (hv : usableVariantResponse (resp v) = false) :
    tryVariants resp symbol (v :: rest) = tryVariants resp symbol rest := by
  cases hrv : resp v with
  | none => simp [tryVariants, hrv]
  | some q =>
    cases hqc : q.c with
    | none => simp [tryVariants, hrv, hqc]
    | some c =>
      have hc : ¬(c ≠ 0) := by
        simpa [usableVariantResponse, hrv, hqc] using hv
      simp [tryVariants, hrv, hqc, hc]

lemma tryVariants_skip (resp : String → Option FinnhubQuote) (symbol : String)
    (vs1 vs2 : List String)
    (h : ∀ u ∈ vs1, usableVariantResponse (resp u) = false) :
    tryVariants resp symbol (vs1 ++ vs2) = tryVariants resp symbol vs2 := by
  induction vs1 with
  | nil => rfl
  | cons v rest ih =>
    have hv := h v (List.mem_cons_self v rest)
    have hrest : ∀ u ∈ rest, usableVariantResponse (resp u) = false :=
      fun u hu => h u (List.mem_cons_of_mem v hu)
    rw [List.cons_append, tryVariants_cons_skip resp symbol v (rest ++ vs2) hv,
        ih hrest]

lemma tryVariants_cons_hit (resp : String → Option FinnhubQuote)
    (symbol v : String) (rest : List String) (q : FinnhubQuote)
    (hv : resp v = some q) (hu : usableVariantResponse (resp v) = true) :
    tryVariants resp symbol (v :: rest) = some (buildFinnhubQuote symbol q) := by
  rw [hv] at hu
  simp only [usableVariantResponse] at hu
  cases hqc : q.c with
  | none => rw [hqc] at hu; cases hu
  | some c =>
    rw [hqc] at hu
    have hc : c ≠ 0 := of_decide_eq_true hu
    simp [tryVariants, hv, hqc, hc]

lemma tryVariants_none (resp : String → Option FinnhubQuote) (symbol : String)
    (vs : List String)
    (h : ∀ u ∈ vs, usableVariantResponse (resp u) = false) :
    tryVariants resp symbol vs = none := by
  have := tryVariants_skip resp symbol vs [] h
  simpa using this

/-- Claim C5: for a symbol with an exchange suffix, the Finnhub variant list
is, in order, the uppercased symbol then the suffix-stripped base, and for
`.L` symbols additionally base + `.LON` then base + `:LN`; the quote
returned is built from the first variant whose upstream current price `c` is
defined and nonzero; and only when every variant fails does the adapter
report failure (the zero-priced error quote). -/
theorem c5_variant_retry (resp : String → Option FinnhubQuote) (s : String) :
    (jsIncludes (jsToUpper s) "." = true →
     jsEndsWith (jsToUpper s) ".L" = false →
      getSymbolVariants s = [jsToUpper s, jsSplitFirstDot (jsToUpper s)])
    ∧ (jsEndsWith (jsToUpper s) ".L" = true →
      getSymbolVariants s =
        [jsToUpper s, jsSplitFirstDot (jsToUpper s),
         jsReplaceFirst (jsToUpper s) ".L" "" ++ ".LON",
         jsReplaceFirst (jsToUpper s) ".L" "" ++ ":LN"])
    ∧ (∀ vs1 v vs2 q, getSymbolVariants s = vs1 ++ v :: vs2 →
        (∀ u ∈ vs1, usableVariantResponse (resp u) = false) →
        resp v = some q → usableVariantResponse (resp v) = true →
        finnhubGetQuote resp s = buildFinnhubQuote s q)
    ∧ ((∀ u ∈ getSymbolVariants s, usableVariantResponse (resp u) = false) →
        finnhubGetQuote resp s = finnhubErrorQuote s) := by
  refine ⟨?_, ?_, ?_, ?_⟩
  · intro hdot hL
    simp [getSymbolVariants, hdot, hL]
  · intro hL
    have hdot := jsIncludes_dot_of_endsWithL (jsToUpper s) hL
    simp [getSymbolVariants, hdot, hL]
  · intro vs1 v vs2 q hvars hskip hv hu
    unfold finnhubGetQuote
    rw [hvars, tryVariants_skip resp s vs1 (v :: vs2) hskip,
        tryVariants_cons_hit resp s v vs2 q hv hu]
  · intro hall
    unfold finnhubGetQuote
    rw [tryVariants_none resp s (getSymbolVariants s) hall]

/-- Witness for C5: for `VOD.L`, with `VOD.L` throwing and `VOD` answering
price 0, the quote comes from the third variant `VOD.LON`. -/
theorem c5_witness :
    finnhubGetQuote
      (fun v =>
        if v = "VOD.LON" then some { c := some 95, pc := some 90 }
        else if v = "VOD" then some { c := some 0 }
        else none)
      "VOD.L" =
    buildFinnhubQuote "VOD.L" { c := some 95, pc := some 90 } := by
  exact (c5_variant_retry
    (fun v =>
      if v = "VOD.LON" then some { c := some 95, pc := some 90 }
      else if v = "VOD" then some { c := some 0 }
      else none)
    "VOD.L").2.2.1 ["VOD.L", "VOD"] "VOD.LON" ["VOD:LN"]
    { c := some 95, pc := some 90 } (by decide) (by decide) (by decide)
    (by decide)

/-! ### Claim C8 -/

/-- Claim C8: the Finnhub adapter enforces a minimum 100 ms spacing between
outbound requests — a request arriving before the interval has elapsed is
delayed so that it fires exactly at `lastRequestTime + 100`, otherwise it
fires immediately — and on a 429 first response it sleeps 1000 ms and issues
exactly one retry (never a third fetch); a non-ok retry response is a
failure. -/
theorem c8_rate_limit (lastRequestTime now : Int)
    (first retry : HttpResponse) :
    (lastRequestTime ≤ now →
      now + rateLimitDelay lastRequestTime now =
        max now (lastRequestTime + minRequestInterval) ∧
      minRequestInterval ≤
        (now + rateLimitDelay lastRequestTime now) - lastRequestTime)
    ∧ (makeRequestFlow first retry).2.1 ≤ 2
    ∧ (first = .tooManyRequests →
        (makeRequestFlow first retry).2.1 = 2 ∧
        (makeRequestFlow first retry).2.2 = 1000 ∧
        (retry ≠ .success → (makeRequestFlow first retry).1 = false))
    ∧ (first ≠ .tooManyRequests → (makeRequestFlow first retry).2.1 = 1) := by
  refine ⟨?_, ?_, ?_, ?_⟩
  · intro hle
    unfold rateLimitDelay minRequestInterval
    constructor
    · split
      · omega
      · omega
    · split
      · omega
      · omega
  · cases first <;> cases retry <;> simp [makeRequestFlow]
  · intro h1
    subst h1
    cases retry <;> simp [makeRequestFlow]
  · intro h1
    cases first with
    | success => simp [makeRequestFlow]
    | tooManyRequests => exact absurd rfl h1
    | httpError => simp [makeRequestFlow]

/-- Witness for C8: a request 40 ms after the previous one is delayed to
exactly the 100 ms boundary, and a 429 followed by a failing retry gives up
after exactly two fetches. -/
theorem c8_witness :
    1040 + rateLimitDelay 1000 1040 = max 1040 (1000 + minRequestInterval) ∧
    (makeRequestFlow HttpResponse.tooManyRequests
        HttpResponse.httpError).2.1 = 2 ∧
    (makeRequestFlow HttpResponse.tooManyRequests
        HttpResponse.httpError).2.2 = 1000 ∧
    (makeRequestFlow HttpResponse.tooManyRequests
        HttpResponse.httpError).1 = false := by
  have h := c8_rate_limit 1000 1040 HttpResponse.tooManyRequests
    HttpResponse.httpError
  have h3 := h.2.2.1 rfl
  exact ⟨(h.1 (by decide)).1, h3.1, h3.2.1, h3.2.2 (by decide)⟩

/-! ### Lemmas about the per-provider attempt results -/

lemma tryFinnhubResult_none_of_fails {r : Except Unit (Option QuoteData)}
    (h : FinnhubAttemptFails r) : tryFinnhubResult r = none := by
  rcases h with h | h | ⟨q, hq, hle⟩
  · subst h; rfl
  · subst h; rfl
  · subst hq
    simp [tryFinnhubResult, not_lt.mpr hle]

lemma tryAlphaResult_none_of_empty {r : Except Unit (Option QuoteData)}
    (h : AttemptEmpty r) : tryAlphaResult r = none := by
  rcases h with h | h <;> subst h <;> rfl

lemma tryYahooResult_none_of_empty {r : Except Unit (Option QuoteData)}
    (h : AttemptEmpty r) : tryYahooResult r = none := by
  rcases h with h | h <;> subst h <;> rfl

lemma tryFinnhubResult_some {r : Except Unit (Option QuoteData)}
    {enhanced : QuoteData} (h : tryFinnhubResult r = some enhanced) :
    enhanced.provider = some "Finnhub" ∧ 0 < enhanced.price := by
  match r with
  | .error _ => exact absurd h (by simp [tryFinnhubResult])
  | .ok none => exact absurd h (by simp [tryFinnhubResult])
  | .ok (some fq) =>
    simp only [tryFinnhubResult] at h
    by_cases hp : 0 < fq.price
    · rw [if_pos hp] at h
      obtain rfl := Option.some.inj h
      exact ⟨rfl, hp⟩
    · rw [if_neg hp] at h
      cases h

lemma tryAlphaResult_some {r : Except Unit (Option QuoteData)}
    {enhanced : QuoteData} (h : tryAlphaResult r = some enhanced) :
    enhanced.provider = some "Alpha Vantage" := by
  match r with
  | .error _ => exact absurd h (by simp [tryAlphaResult])
  | .ok none => exact absurd h (by simp [tryAlphaResult])
  | .ok (some aq) =>
    simp only [tryAlphaResult] at h
    obtain rfl := Option.some.inj h
    rfl

lemma tryYahooResult_some {r : Except Unit (Option QuoteData)}
    {enhanced : QuoteData} (h : tryYahooResult r = some enhanced) :
    enhanced.provider = some "Yahoo Finance" := by
  match r with
  | .error _ => exact absurd h (by simp [tryYahooResult])
  | .ok none => exact absurd h (by simp [tryYahooResult])
  | .ok (some yq) =>
    simp only [tryYahooResult] at h
    obtain rfl := Option.some.inj h
    rfl

/-! ### Claim C1 -/

/-- Claim C1: on a cache miss with all three providers failing or yielding
no usable price, the resolver still returns a Quote-shaped value — the
fallback record for the uppercased symbol, with the error note populated and
provider tag `"Fallback"`.  The embedding of `getQuote` is a total function
into `QuoteData` (never `null`, never a propagated exception): every
throwing call in the source sits inside a `try`/`catch` and the final
fallback is a pure object construction. -/
theorem c1_terminal_fallback (env : ProviderEnv) (cache : Cache) (now : Int)
    (symbol : String)
    (hmiss : getCachedQuote cache now symbol = none)
    (hf : FinnhubAttemptFails env.finnhub)
    (ha : AttemptEmpty env.alphaVantage)
    (hy : AttemptEmpty env.yahoo) :
    (multiGetQuote env cache now symbol).1 = getBasicEuropeanFallback symbol ∧
    (multiGetQuote env cache now symbol).1.symbol = jsToUpper symbol ∧
    (multiGetQuote env cache now symbol).1.error =
      some "Prezzo in tempo reale non disponibile. Puoi aggiungere il prezzo manualmente." ∧
    (multiGetQuote env cache now symbol).1.provider = some "Fallback" := by
  have h1 := tryFinnhubResult_none_of_fails hf
  have h2 := tryAlphaResult_none_of_empty ha
  have h3 := tryYahooResult_none_of_empty hy
  have hq : multiGetQuote env cache now symbol =
      (getBasicEuropeanFallback symbol, cache,
       [Provider.finnhub, Provider.alphaVantage, Provider.yahooFinance]) := by
    simp [multiGetQuote, hmiss, h1, h2, h3]
  rw [hq]
  exact ⟨rfl, rfl, rfl, rfl⟩

def env0 : ProviderEnv := ⟨.error (), .ok none, .ok none⟩

/-- Witness for C1: the finnhub call throws and the other providers resolve
to `null`. -/
theorem c1_witness :
    (multiGetQuote env0 emptyCache 0 "eni.mi").1 =
      getBasicEuropeanFallback "eni.mi" ∧
    (multiGetQuote env0 emptyCache 0 "eni.mi").1.symbol = jsToUpper "eni.mi" ∧
    (multiGetQuote env0 emptyCache 0 "eni.mi").1.error =
      some "Prezzo in tempo reale non disponibile. Puoi aggiungere il prezzo manualmente." ∧
    (multiGetQuote env0 emptyCache 0 "eni.mi").1.provider = some "Fallback" :=
  c1_terminal_fallback env0 emptyCache 0 "eni.mi" rfl (Or.inl rfl)
    (Or.inr rfl) (Or.inr rfl)

/-! ### Claim C2 -/

/-- Claim C2: on a cache miss the providers are attempted in the fixed order
Finnhub, Alpha Vantage, Yahoo Finance — the attempt trace is always a prefix
of that list — and with Finnhub failing and Alpha Vantage succeeding the
result is Alpha Vantage's quote tagged `"Alpha Vantage"`, Yahoo is not
attempted, and Finnhub was attempted first. -/
theorem c2_provider_order (env : ProviderEnv) (cache : Cache) (now : Int)
    (symbol : String) :
    ((multiGetQuote env cache now symbol).2.2 = [] ∨
     (multiGetQuote env cache now symbol).2.2 = [Provider.finnhub] ∨
     (multiGetQuote env cache now symbol).2.2 =
       [Provider.finnhub, Provider.alphaVantage] ∨
     (multiGetQuote env cache now symbol).2.2 =
       [Provider.finnhub, Provider.alphaVantage, Provider.yahooFinance])
    ∧ (∀ q, getCachedQuote cache now symbol = none →
        FinnhubAttemptFails env.finnhub →
        env.alphaVantage = .ok (some q) →
        (multiGetQuote env cache now symbol).1 =
          { q with provider := some "Alpha Vantage" } ∧
        (multiGetQuote env cache now symbol).2.2 =
          [Provider.finnhub, Provider.alphaVantage] ∧
        (multiGetQuote env cache now symbol).2.2.head? =
          some Provider.finnhub) := by
  constructor
  · cases hc : getCachedQuote cache now symbol with
    | some cached => left; simp [multiGetQuote, hc]
    | none =>
      cases h1 : tryFinnhubResult env.finnhub with
      | some enhanced => right; left; simp [multiGetQuote, hc, h1]
      | none =>
        cases h2 : tryAlphaResult env.alphaVantage with
        | some enhanced => right; right; left; simp [multiGetQuote, hc, h1, h2]
        | none =>
          cases h3 : tryYahooResult env.yahoo with
          | some enhanced =>
            right; right; right; simp [multiGetQuote, hc, h1, h2, h3]
          | none =>
            right; right; right; simp [multiGetQuote, hc, h1, h2, h3]
  · intro q hc hf hav
    have h1 := tryFinnhubResult_none_of_fails hf
    have h2 : tryAlphaResult env.alphaVantage =
        some { q with provider := some "Alpha Vantage" } := by
      rw [hav]; rfl
    have hq : multiGetQuote env cache now symbol =
        ({ q with provider := some "Alpha Vantage" },
         setCachedQuote cache now symbol
           { q with provider := some "Alpha Vantage" },
         [Provider.finnhub, Provider.alphaVantage]) := by
      simp [multiGetQuote, hc, h1, h2]
    rw [hq]
    exact ⟨rfl, rfl, rfl⟩

def qAlpha : QuoteData :=
  { symbol := "SAP.DE", name := "SAP.DE", price := 120,
    changesPercentage := 1, change := 1, dayLow := 119, dayHigh := 121,
    openPrice := 119, previousClose := 119, currency := "EUR",
    exchange := "XETRA" }

def envC2 : ProviderEnv := ⟨.error (), .ok (some qAlpha), .ok none⟩

/-- Witness for C2: finnhub throws, Alpha Vantage answers. -/
theorem c2_witness :
    (multiGetQuote envC2 emptyCache 0 "SAP.DE").1 =
      { qAlpha with provider := some "Alpha Vantage" } ∧
    (multiGetQuote envC2 emptyCache 0 "SAP.DE").2.2 =
      [Provider.finnhub, Provider.alphaVantage] ∧
    (multiGetQuote envC2 emptyCache 0 "SAP.DE").2.2.head? =
      some Provider.finnhub :=
  (c2_provider_order envC2 emptyCache 0 "SAP.DE").2 qAlpha rfl (Or.inl rfl)
    rfl

/-! ### Claim C3 -/

lemma tryVariants_price_ne_zero (resp : String → Option FinnhubQuote)
    (symbol : String) :
    ∀ (vs : List String) (q : QuoteData),
      tryVariants resp symbol vs = some q → q.price ≠ 0 := by
  intro vs
  induction vs with
  | nil => intro q h; cases h
  | cons v rest ih =>
    intro q h
    cases hrv : resp v with
    | none =>
      rw [tryVariants_cons_skip resp symbol v rest
        (by simp [usableVariantResponse, hrv])] at h
      exact ih q h
    | some fq =>
      cases hqc : fq.c with
      | none =>
        rw [tryVariants_cons_skip resp symbol v rest
          (by simp [usableVariantResponse, hrv, hqc])] at h
        exact ih q h
      | some c =>
        by_cases hc : c = 0
        · rw [tryVariants_cons_skip resp symbol v rest
            (by simp [usableVariantResponse, hrv, hqc, hc])] at h
          exact ih q h
        · rw [tryVariants_cons_hit resp symbol v rest fq hrv
            (by simp [usableVariantResponse, hrv, hqc, hc])] at h
          obtain rfl := Option.some.inj h
          simpa [buildFinnhubQuote, orZero, hqc] using hc

/-- An Alpha Vantage `"Global Quote"` whose `"05. price"` field is the
string `"0"`: truthy (non-empty), parsing to 0. -/
def avZero : AVGlobalQuote :=
  { priceTruthy := true, price := 0, changePercent := 0, change := 0,
    high := 0, low := 0, openPrice := 0, previousClose := 0 }

def envZeroPrice : ProviderEnv :=
  ⟨.error (), .ok (getAlphaVantageQuote (some (some avZero)) "ZERO"),
   .ok none⟩

/-- Claim C3 (counterexample): with Finnhub failing and the Alpha Vantage
upstream reporting the truthy price string `"0"`, the resolver returns a
quote with `price = 0` and no error note, tagged `"Alpha Vantage"` — the
Alpha Vantage adapter checks only that the price field is a non-empty
string, so an upstream price of exactly 0 is not treated as a failure. -/
theorem c3_counterexample :
    (multiGetQuote envZeroPrice emptyCache 0 "ZERO").1.price ≤ 0 ∧
    (multiGetQuote envZeroPrice emptyCache 0 "ZERO").1.error = none ∧
    (multiGetQuote envZeroPrice emptyCache 0 "ZERO").1.provider =
      some "Alpha Vantage" := by
  refine ⟨by decide, by decide, by decide⟩

/-- Claim C3 (amended): on a cache miss the resolver never returns a quote
tagged `"Finnhub"` with nonpositive price (the Finnhub branch requires
`price > 0`), the terminal `"Fallback"` quote always carries an error note,
and the Finnhub adapter itself only reports a zero price together with an
error note (an upstream current price of 0, like an HTTP error, skips the
variant); the Alpha Vantage and Yahoo adapters, however, accept an upstream
price of exactly 0 as a valid quote without an error note. -/
theorem c3_zero_price_guard (env : ProviderEnv) (cache : Cache) (now : Int)
    (symbol : String) (resp : String → Option FinnhubQuote)
    (hmiss : getCachedQuote cache now symbol = none) :
    ((multiGetQuote env cache now symbol).1.provider = some "Finnhub" →
      0 < (multiGetQuote env cache now symbol).1.price)
    ∧ ((multiGetQuote env cache now symbol).1.provider = some "Fallback" →
      (multiGetQuote env cache now symbol).1.error.isSome = true)
    ∧ ((finnhubGetQuote resp symbol).price = 0 →
      (finnhubGetQuote resp symbol).error.isSome = true) := by
  refine ⟨?_, ?_, ?_⟩
  · cases h1 : tryFinnhubResult env.finnhub with
    | some enhanced =>
      have heq : (multiGetQuote env cache now symbol).1 = enhanced := by
        simp [multiGetQuote, hmiss, h1]
      rw [heq]
      intro _
      exact (tryFinnhubResult_some h1).2
    | none =>
      cases h2 : tryAlphaResult env.alphaVantage with
      | some enhanced =>
        have heq : (multiGetQuote env cache now symbol).1 = enhanced := by
          simp [multiGetQuote, hmiss, h1, h2]
        rw [heq]
        intro hp
        rw [tryAlphaResult_some h2] at hp
        exact absurd (Option.some.inj hp) (by decide)
      | none =>
        cases h3 : tryYahooResult env.yahoo with
        | some enhanced =>
          have heq : (multiGetQuote env cache now symbol).1 = enhanced := by
            simp [multiGetQuote, hmiss, h1, h2, h3]
          rw [heq]
          intro hp
          rw [tryYahooResult_some h3] at hp
          exact absurd (Option.some.inj hp) (by decide)
        | none =>
          have heq : (multiGetQuote env cache now symbol).1 =
              getBasicEuropeanFallback symbol := by
            simp [multiGetQuote, hmiss, h1, h2, h3]
          rw [heq]
          intro hp
          exact absurd (Option.some.inj hp) (by decide)
  · cases h1 : tryFinnhubResult env.finnhub with
    | some enhanced =>
      have heq : (multiGetQuote env cache now symbol).1 = enhanced := by
        simp [multiGetQuote, hmiss, h1]
      rw [heq]
      intro hp
      rw [(tryFinnhubResult_some h1).1] at hp
      exact absurd (Option.some.inj hp) (by decide)
    | none =>
      cases h2 : tryAlphaResult env.alphaVantage with
      | some enhanced =>
        have heq : (multiGetQuote env cache now symbol).1 = enhanced := by
          simp [multiGetQuote, hmiss, h1, h2]
        rw [heq]
        intro hp
        rw [tryAlphaResult_some h2] at hp
        exact absurd (Option.some.inj hp) (by decide)
      | none =>
        cases h3 : tryYahooResult env.yahoo with
        | some enhanced =>
          have heq : (multiGetQuote env cache now symbol).1 = enhanced := by
            simp [multiGetQuote, hmiss, h1, h2, h3]
          rw [heq]
          intro hp
          rw [tryYahooResult_some h3] at hp
          exact absurd (Option.some.inj hp) (by decide)
        | none =>
          have heq : (multiGetQuote env cache now symbol).1 =
              getBasicEuropeanFallback symbol := by
            simp [multiGetQuote, hmiss, h1, h2, h3]
          rw [heq]
          intro _
          rfl
  · cases htv : tryVariants resp symbol (getSymbolVariants symbol) with
    | some q =>
      have heq : finnhubGetQuote resp symbol = q := by
        simp [finnhubGetQuote, htv]
      rw [heq]
      intro hp
      exact absurd hp
        (tryVariants_price_ne_zero resp symbol (getSymbolVariants symbol) q
          htv)
    | none =>
      have heq : finnhubGetQuote resp symbol = finnhubErrorQuote symbol := by
        simp [finnhubGetQuote, htv]
      rw [heq]
      intro _
      rfl

/-- Witness for C3 (amended): with all providers failing the fallback quote
carries an error note, and the Finnhub adapter's all-variants-failed quote
(price 0) carries an error note. -/
theorem c3_witness :
    (multiGetQuote env0 emptyCache 0 "XX").1.error.isSome = true ∧
    (finnhubGetQuote (fun _ => none) "XX").error.isSome = true := by
  have h := c3_zero_price_guard env0 emptyCache 0 "XX" (fun _ => none) rfl
  exact ⟨h.2.1 (by decide), h.2.2 (by decide)⟩

/-! ### Claim C4 -/

/-- Claim C4: the quote cache is keyed by the uppercased symbol only (two
symbols equal up to case hit the same entry), the TTL is 5 minutes
(300000 ms, an entry at least that old is a miss and is overwritten by the
next successful put), a cache hit returns the cached quote with zero
provider attempts, every successful provider resolution is written to the
cache before being returned — so a second resolve within the TTL, under any
provider environment, returns the same quote with zero provider attempts —
while the terminal fallback result leaves the cache untouched. -/
theorem c4_cache_behavior (env env2 : ProviderEnv) (cache : Cache)
    (now t2 : Int) (s1 s2 : String) :
    cacheTimeout = 300000
    ∧ (jsToUpper s1 = jsToUpper s2 →
        getCachedQuote cache now s1 = getCachedQuote cache now s2)
    ∧ (∀ q ts, cache (jsToUpper s1) = some (q, ts) →
        cacheTimeout ≤ now - ts → getCachedQuote cache now s1 = none)
    ∧ (∀ q, getCachedQuote cache now s1 = some q →
        multiGetQuote env cache now s1 = (q, cache, []))
    ∧ (getCachedQuote cache now s1 = none →
       ∀ r c tr, multiGetQuote env cache now s1 = (r, c, tr) →
        (r.provider = some "Fallback" → c = cache)
        ∧ (r.provider ≠ some "Fallback" →
            c = setCachedQuote cache now s1 r
            ∧ (t2 - now < cacheTimeout → jsToUpper s2 = jsToUpper s1 →
                multiGetQuote env2 c t2 s2 = (r, c, [])))) := by
  refine ⟨rfl, ?_, ?_, ?_, ?_⟩
  · intro hupper
    simp only [getCachedQuote, hupper]
  · intro q ts hcq hold
    simp [getCachedQuote, hcq, not_lt.mpr hold]
  · intro q hq
    simp [multiGetQuote, hq]
  · intro hmiss r c tr heqn
    cases h1 : tryFinnhubResult env.finnhub with
    | some enhanced =>
      have hform : multiGetQuote env cache now s1 =
          (enhanced, setCachedQuote cache now s1 enhanced,
           [Provider.finnhub]) := by
        simp [multiGetQuote, hmiss, h1]
      rw [hform] at heqn
      simp only [Prod.mk.injEq] at heqn
      obtain ⟨rfl, rfl, rfl⟩ := heqn
      constructor
      · intro hp
        rw [(tryFinnhubResult_some h1).1] at hp
        exact absurd (Option.some.inj hp) (by decide)
      · intro _
        refine ⟨rfl, ?_⟩
        intro ht hupper
        have hget : getCachedQuote (setCachedQuote cache now s1 enhanced) t2
            s2 = some enhanced := by
          simp [getCachedQuote, setCachedQuote, hupper, ht]
        simp [multiGetQuote, hget]
    | none =>
      cases h2 : tryAlphaResult env.alphaVantage with
      | some enhanced =>
        have hform : multiGetQuote env cache now s1 =
            (enhanced, setCachedQuote cache now s1 enhanced,
             [Provider.finnhub, Provider.alphaVantage]) := by
          simp [multiGetQuote, hmiss, h1, h2]
        rw [hform] at heqn
        simp only [Prod.mk.injEq] at heqn
        obtain ⟨rfl, rfl, rfl⟩ := heqn
        constructor
        · intro hp
          rw [tryAlphaResult_some h2] at hp
          exact absurd (Option.some.inj hp) (by decide)
        · intro _
          refine ⟨rfl, ?_⟩
          intro ht hupper
          have hget : getCachedQuote (setCachedQuote cache now s1 enhanced)
              t2 s2 = some enhanced := by
            simp [getCachedQuote, setCachedQuote, hupper, ht]
          simp [multiGetQuote, hget]
      | none =>
        cases h3 : tryYahooResult env.yahoo with
        | some enhanced =>
          have hform : multiGetQuote env cache now s1 =
              (enhanced, setCachedQuote cache now s1 enhanced,
               [Provider.finnhub, Provider.alphaVantage,
                Provider.yahooFinance]) := by
            simp [multiGetQuote, hmiss, h1, h2, h3]
          rw [hform] at heqn
          simp only [Prod.mk.injEq] at heqn
          obtain ⟨rfl, rfl, rfl⟩ := heqn
          constructor
          · intro hp
            rw [tryYahooResult_some h3] at hp
            exact absurd (Option.some.inj hp) (by decide)
          · intro _
            refine ⟨rfl, ?_⟩
            intro ht hupper
            have hget : getCachedQuote (setCachedQuote cache now s1 enhanced)
                t2 s2 = some enhanced := by
              simp [getCachedQuote, setCachedQuote, hupper, ht]
            simp [multiGetQuote, hget]
        | none =>
          have hform : multiGetQuote env cache now s1 =
              (getBasicEuropeanFallback s1, cache,
               [Provider.finnhub, Provider.alphaVantage,
                Provider.yahooFinance]) := by
            simp [multiGetQuote, hmiss, h1, h2, h3]
          rw [hform] at heqn
          simp only [Prod.mk.injEq] at heqn
          obtain ⟨rfl, rfl, rfl⟩ := heqn
          constructor
          · intro _
            rfl
          · intro hp
            exact absurd rfl hp

def qA : QuoteData :=
  { symbol := "AAPL", name := "Apple Inc.", price := 5,
    changesPercentage := 0, change := 0, dayLow := 0, dayHigh := 0,
    openPrice := 0, previousClose := 0, currency := "USD",
    exchange := "NASDAQ" }

def rA : QuoteData := { qA with provider := some "Finnhub" }

def envA : ProviderEnv := ⟨.ok (some qA), .ok none, .ok none⟩

def cacheA : Cache := setCachedQuote emptyCache 0 "aapl" rA

/-- Witness for C4: after a Finnhub resolution of `aapl` at time 0, a second
resolve of `AAPL` at time 100 (within the TTL, different letter case, any
environment) is served from the cache with zero provider attempts. -/
theorem c4_witness :
    multiGetQuote envA cacheA 100 "AAPL" = (rA, cacheA, []) := by
  have h := (c4_cache_behavior envA envA emptyCache 0 100 "aapl"
    "AAPL").2.2.2.2 rfl rA cacheA [Provider.finnhub] rfl
  exact (h.2 (by decide)).2 (by decide) (by decide)

/-! ### Claim C9 -/

/-- Claim C9: with the connectivity prober reporting offline, the quote
route never invokes the multi-provider (network) path; it answers
exclusively from the offline quote source, tagging the result
`provider = "Offline Data"`, and answers 404 when the offline table lacks
the symbol — regardless of what the network providers would have
returned. -/
theorem c9_offline_mode (symbol : String) (offlineQuote : Option QuoteData)
    (onlineResult : Except Unit (Option QuoteData))
    (hsym : symbol ≠ "") :
    (quoteHandler symbol false offlineQuote onlineResult).2 = false
    ∧ (offlineQuote = none →
        quoteHandler symbol false offlineQuote onlineResult =
          (.notFound "Quote not found in offline data", false))
    ∧ (∀ q, offlineQuote = some q →
        quoteHandler symbol false offlineQuote onlineResult =
          (.json200 { q with provider := some "Offline Data" }, false)) := by
  refine ⟨?_, ?_, ?_⟩
  · cases offlineQuote with
    | none => simp [quoteHandler, hsym]
    | some q => simp [quoteHandler, hsym]
  · intro h
    subst h
    simp [quoteHandler, hsym]
  · intro q h
    subst h
    simp [quoteHandler, hsym]

/-- Witness for C9: offline with an absent symbol gives 404; offline with a
present symbol returns the offline quote retagged, even though the online
path would have thrown. -/
theorem c9_witness :
    quoteHandler "AAPL" false none (.ok none) =
      (.notFound "Quote not found in offline data", false) ∧
    quoteHandler "VOD.L" false (some qA) (.error ()) =
      (.json200 { qA with provider := some "Offline Data" }, false) :=
  ⟨(c9_offline_mode "AAPL" none (.ok none) (by decide)).2.1 rfl,
   (c9_offline_mode "VOD.L" (some qA) (.error ()) (by decide)).2.2 qA rfl⟩

/-! ### Claim C10 -/

/-- The sell transaction recorded by `sellInvestment` (the argument of its
`createTransaction` call) for the investment being sold. -/
def sellTxnRecord (existing : Investment) (freshId nowIso : String)
    (q p : Rat) (user : String) : Transaction :=
  { id := freshId
    txType := "sell"
    assetSymbol := existing.symbol
    assetName := existing.name
    quantity := some q
    price := some p
    total := some (q * p)
    user := user
    timestamp := nowIso }

lemma lookupKey_removeKey {α : Type} (l : List (String × α)) (id : String) :
    lookupKey (removeKey l id) id = none := by
  unfold lookupKey removeKey
  cases hf : List.find? (fun kv => kv.1 = id)
      (List.filter (fun kv => kv.1 ≠ id) l) with
  | none => simp
  | some kv =>
    have h1 := List.find?_some hf
    have h2 := List.mem_of_find?_eq_some hf
    have h3 := (List.mem_filter.mp h2).2
    simp at h1 h3
    exact absurd h1 h3

lemma sellInvestment_notfound {st : StorageState}
    {freshId nowIso id : String} {q p : Rat} {user : String}
    (hlk : lookupKey st.investments id = none) :
    sellInvestment st freshId nowIso id q p user =
      (.error "Investment not found", st) := by
  simp [sellInvestment, hlk]

lemma sellInvestment_oversell {st : StorageState}
    {freshId nowIso id : String} {q p : Rat} {user : String}
    {ex : Investment} (hlk : lookupKey st.investments id = some ex)
    (hlt : ex.quantity < q) :
    sellInvestment st freshId nowIso id q p user =
      (.error "Cannot sell more than owned quantity", st) := by
  simp [sellInvestment, hlk, hlt]

lemma sellInvestment_full {st : StorageState}
    {freshId nowIso id : String} {q p : Rat} {user : String}
    {ex : Investment} (hlk : lookupKey st.investments id = some ex)
    (heq : q = ex.quantity) :
    sellInvestment st freshId nowIso id q p user =
      (.ok (none, sellTxnRecord ex freshId nowIso q p user),
       { investments := removeKey st.investments id,
         transactions :=
           st.transactions ++
             [(freshId, sellTxnRecord ex freshId nowIso q p user)] }) := by
  subst heq
  have hngt : ¬(ex.quantity > ex.quantity) := lt_irrefl _
  simp [sellInvestment, hlk, hngt, sellTxnRecord]

lemma sellInvestment_partialSell {st : StorageState}
    {freshId nowIso id : String} {q p : Rat} {user : String}
    {ex : Investment} (hlk : lookupKey st.investments id = some ex)
    (hlt : q < ex.quantity) :
    sellInvestment st freshId nowIso id q p user =
      (.ok (some { ex with
                     quantity := ex.quantity - q
                     updatedAt := nowIso },
            sellTxnRecord ex freshId nowIso q p user),
       { investments :=
           setKey st.investments id
             { ex with
                 quantity := ex.quantity - q
                 updatedAt := nowIso },
         transactions :=
           st.transactions ++
             [(freshId, sellTxnRecord ex freshId nowIso q p user)] }) := by
  have hngt : ¬(q > ex.quantity) := not_lt.mpr (le_of_lt hlt)
  have hne : ¬(q = ex.quantity) := ne_of_lt hlt
  simp [sellInvestment, hlk, hngt, hne, sellTxnRecord]

/-- Claim C10: `sellInvestment` keeps every investment quantity
non-negative.  Over-selling throws and leaves investments and the
transaction log unchanged; selling exactly the owned quantity removes the
investment; a partial sell decreases the quantity by exactly the sold
amount, leaving it positive; every successful sell appends one immutable
sell transaction whose total is quantity times price; and non-negativity of
all stored quantities is preserved by every successful sell. -/
theorem c10_sell_invariants (st : StorageState) (freshId nowIso id : String)
    (q p : Rat) (user : String) :
    (∀ existing, lookupKey st.investments id = some existing →
       existing.quantity < q →
       sellInvestment st freshId nowIso id q p user =
         (.error "Cannot sell more than owned quantity", st))
    ∧ (∀ existing, lookupKey st.investments id = some existing →
       q = existing.quantity →
       sellInvestment st freshId nowIso id q p user =
         (.ok (none, sellTxnRecord existing freshId nowIso q p user),
          { investments := removeKey st.investments id,
            transactions :=
              st.transactions ++
                [(freshId, sellTxnRecord existing freshId nowIso q p user)] })
       ∧ lookupKey (removeKey st.investments id) id = none)
    ∧ (∀ existing, lookupKey st.investments id = some existing →
       q < existing.quantity →
       sellInvestment st freshId nowIso id q p user =
         (.ok (some { existing with
                        quantity := existing.quantity - q
                        updatedAt := nowIso },
               sellTxnRecord existing freshId nowIso q p user),
          { investments :=
              setKey st.investments id
                { existing with
                    quantity := existing.quantity - q
                    updatedAt := nowIso },
            transactions :=
              st.transactions ++
                [(freshId, sellTxnRecord existing freshId nowIso q p user)] })
       ∧ 0 < existing.quantity - q)
    ∧ (∀ res st2, sellInvestment st freshId nowIso id q p user =
         (.ok res, st2) →
       res.2.txType = "sell" ∧ res.2.quantity = some q ∧
       res.2.price = some p ∧ res.2.total = some (q * p))
    ∧ ((∀ kv ∈ st.investments, 0 ≤ kv.2.quantity) →
       ∀ res st2, sellInvestment st freshId nowIso id q p user =
         (.ok res, st2) →
       ∀ kv ∈ st2.investments, 0 ≤ kv.2.quantity) := by
  refine ⟨?_, ?_, ?_, ?_, ?_⟩
  · intro ex hlk hlt
    exact sellInvestment_oversell hlk hlt
  · intro ex hlk heq
    exact ⟨sellInvestment_full hlk heq, lookupKey_removeKey _ _⟩
  · intro ex hlk hlt
    exact ⟨sellInvestment_partialSell hlk hlt, sub_pos.mpr hlt⟩
  · intro res st2 heqn
    cases hlk : lookupKey st.investments id with
    | none =>
      rw [sellInvestment_notfound hlk] at heqn
      simp at heqn
    | some ex =>
      rcases lt_trichotomy q ex.quantity with hlt | heq2 | hgt
      · rw [sellInvestment_partialSell hlk hlt] at heqn
        simp only [Prod.mk.injEq, Except.ok.injEq] at heqn
        obtain ⟨hres, _⟩ := heqn
        subst hres
        exact ⟨rfl, rfl, rfl, rfl⟩
      · rw [sellInvestment_full hlk heq2] at heqn
        simp only [Prod.mk.injEq, Except.ok.injEq] at heqn
        obtain ⟨hres, _⟩ := heqn
        subst hres
        exact ⟨rfl, rfl, rfl, rfl⟩
      · rw [sellInvestment_oversell hlk hgt] at heqn
        simp at heqn
  · intro hinv res st2 heqn kv hkv
    cases hlk : lookupKey st.investments id with
    | none =>
      rw [sellInvestment_notfound hlk] at heqn
      simp at heqn
    | some ex =>
      rcases lt_trichotomy q ex.quantity with hlt | heq2 | hgt
      · rw [sellInvestment_partialSell hlk hlt] at heqn
        simp only [Prod.mk.injEq, Except.ok.injEq] at heqn
        obtain ⟨_, hst⟩ := heqn
        subst hst
        simp only [setKey] at hkv
        obtain ⟨kv0, hkv0, hmap⟩ := List.mem_map.mp hkv
        by_cases hkid : kv0.1 = id
        · rw [if_pos hkid] at hmap
          subst hmap
          exact sub_nonneg.mpr (le_of_lt hlt)
        · rw [if_neg hkid] at hmap
          subst hmap
          exact hinv kv0 hkv0
      · rw [sellInvestment_full hlk heq2] at heqn
        simp only [Prod.mk.injEq, Except.ok.injEq] at heqn
        obtain ⟨_, hst⟩ := heqn
        subst hst
        simp only [removeKey] at hkv
        exact hinv kv (List.mem_filter.mp hkv).1
      · rw [sellInvestment_oversell hlk hgt] at heqn
        simp at heqn

def invA : Investment :=
  { id := "1", name := "Apple Inc.", symbol := "AAPL", category := "stocks",
    quantity := 25, avgPrice := 175, currentPrice := 182,
    purchaseDate := "2023-12-15", aliShare := 25, createdAt := "t0",
    updatedAt := "t0" }

def stA : StorageState :=
  { investments := [("1", invA)], transactions := [] }

/-- Witness for C10: over-selling 30 of 25 owned units throws and leaves the
state unchanged; a partial sell of 10 at 10 decreases the quantity to 15 and
records the sell transaction. -/
theorem c10_witness :
    sellInvestment stA "tx1" "t1" "1" 30 10 "Alle" =
      (.error "Cannot sell more than owned quantity", stA) ∧
    sellInvestment stA "tx1" "t1" "1" 10 10 "Alle" =
      (.ok (some { invA with
                     quantity := invA.quantity - 10
                     updatedAt := "t1" },
            sellTxnRecord invA "tx1" "t1" 10 10 "Alle"),
       { investments :=
           setKey stA.investments "1"
             { invA with
                 quantity := invA.quantity - 10
                 updatedAt := "t1" },
         transactions :=
           stA.transactions ++ [("tx1", sellTxnRecord invA "tx1" "t1" 10 10 "Alle")] }) ∧
    0 < invA.quantity - 10 :=
  ⟨(c10_sell_invariants stA "tx1" "t1" "1" 30 10 "Alle").1 invA rfl
     (by decide),
   ((c10_sell_invariants stA "tx1" "t1" "1" 10 10 "Alle").2.2.1 invA rfl
     (by decide)).1,
   ((c10_sell_invariants stA "tx1" "t1" "1" 10 10 "Alle").2.2.1 invA rfl
     (by decide)).2⟩
